import Mathlib

/-!
Shallow embedding of `src/dionysus/training.py` (repository
`felix-ha/dionysus-trainer`): the `TrainingConfig` dataclass with its
`__post_init__`, the `train` loop and the `run_epoch` pass.

Modelling conventions:
  * Python floats are embedded as `ℚ`; tensors of inputs are `List Int`
    (a batch of rows, each row opaque to the loop), labels are `List Int`,
    prediction batches are `List (List ℚ)` (a row of class scores per input).
  * External collaborators (torch autograd, `torch.optim` constructors,
    sklearn's `classification_report`, `time.time`) are embedded as function
    parameters carried by the configuration (`TorchEnv`), specified only at
    their interface boundary, as in the spec.
  * Python exceptions are an explicit `PyError`; a function that can raise
    returns `Except PyError _`.  A Python local that may be unbound is an
    `Option` (`none` = unbound; reading it raises `NameError`).
  * Filesystem and logging side effects (`save_checkpoint` persistence, the
    log file, `mkdir`) are not observable here; a checkpoint call is recorded
    as a `CheckpointEvent` in the run's event trace.
-/

/-- Python exception kinds that the embedded code can raise. -/
inductive PyError where
  | nameError
  | typeError
  | attributeError
  | keyError
  | indexError
  deriving DecidableEq, Repr

/-- An optimizer object returned by a `torch.optim` constructor, bound to the
model's parameters: external collaborator, specified at its interface
boundary as a `step` function taking current parameters and gradients. -/
structure TorchOptimizer where
  step : List ℚ → List ℚ → List ℚ

/-- The `optimizer` field of `TrainingConfig`: it is declared as a string
selector and `__post_init__` may replace it by a bound optimizer object. -/
inductive OptimizerField where
  | selector (s : String)
  | bound (opt : TorchOptimizer)

/-- The external collaborator `torch.optim.SGD(params, lr)`: plain gradient
descent, `p := p - lr * g` per parameter. -/
def torchOptimSGD (lr : ℚ) : TorchOptimizer :=
  ⟨fun params grads => (params.zip grads).map (fun pg => pg.1 - lr * pg.2)⟩

/-- Optimizer resolution in `TrainingConfig.__post_init__`
(training.py lines 55-58).  `sgdCtor` and `adamwCtor` stand for the external
constructors `torch.optim.SGD` and `torch.optim.AdamW`.  Note there is no
`else` branch: a selector outside SGD and AdamW is left as the raw string. -/
def resolveOptimizer (sgdCtor adamwCtor : ℚ → TorchOptimizer)
    (optimizer : String) (lr : ℚ) : OptimizerField :=
  if optimizer = "SGD" then .bound (sgdCtor lr)
  else if optimizer = "AdamW" then .bound (adamwCtor lr)
  else .selector optimizer

/-- The two concrete torch devices this code can name. -/
inductive TorchDevice where
  | cpu
  | cuda0
  deriving DecidableEq, Repr

/-- Rendering of a device, as it appears inside log messages. -/
def TorchDevice.render : TorchDevice → String
  | .cpu => "cpu"
  | .cuda0 => "cuda:0"

/-- The `device` field of `TrainingConfig`: a selector string as passed by the
caller, or a resolved `torch.device` object.  Python `==` between a string
and a `torch.device` object is `False`, which the derived structural
equality reflects. -/
inductive DeviceField where
  | str (s : String)
  | dev (d : TorchDevice)
  deriving DecidableEq, Repr

/-- Rendering of the device field inside log messages. -/
def DeviceField.render : DeviceField → String
  | .str s => s
  | .dev d => d.render

/-- Python truthiness of the object `torch.device("cpu")`: it defines neither
`__bool__` nor `__len__`, so as an operand of `or` it is truthy.  This is the
second operand of the `elif` condition on training.py line 82. -/
def truthyTorchDeviceCpu : Bool := true

/-- The log message of the unreachable `else` branch
(training.py line 86). -/
def deviceUnavailableMsg (device : DeviceField) : String :=
  "device " ++ device.render ++ " is not available, using cpu instead"

/-- Device resolution in `TrainingConfig.__post_init__`
(training.py lines 79-86).  Returns the new value of `self.device` together
with the log lines emitted.  The `elif` condition is
`self.device == "cpu" or torch.device("cpu")`: its second operand is a truthy
object, so the branch is taken whenever the first `if` is not. -/
def resolveDevice (device : DeviceField) (cudaAvailable : Bool) :
    DeviceField × List String :=
  if device = .str "gpu" ∨ device = .dev .cuda0 then
    let d : TorchDevice := if cudaAvailable then .cuda0 else .cpu
    (.dev d, ["using device " ++ d.render])
  else if device = .str "cpu" ∨ truthyTorchDeviceCpu = true then
    (.dev .cpu, ["using device cpu"])
  else
    (device, [deviceUnavailableMsg device])

/-- One batch `(x, y)` yielded by a data loader: a batch of input rows and the
matching labels. -/
structure Batch where
  x : List Int
  y : List Int

/-- The model collaborator: mutable parameters and their gradient slots, the
train/eval mode flag, and a forward pass that is a function of the current
parameters. -/
structure PyModel where
  params : List ℚ
  grads : List ℚ
  training : Bool
  forward : List ℚ → List Int → List (List ℚ)

/-- The accuracy and macro-averaged entries read out of sklearn's
`classification_report(..., output_dict=True)`. -/
structure MacroReport where
  accuracy : ℚ
  macroRecall : ℚ
  macroPrecision : ℚ
  macroF1score : ℚ

/-- The accumulated predictions after the post-loop `np.asarray` step: either
the raw score rows (regression path) or hard labels after `np.argmax`
(classification path). -/
inductive PredArray where
  | raw (rows : List (List ℚ))
  | labels (ls : List Nat)

/-- The `(y_true, y_pred)` pair captured on the last validation epoch. -/
abbrev Snapshot := List Int × PredArray

/-- Ambient external collaborators used inside the loop:
`lossGrad params x y loss` is autograd's gradient of the loss with respect to
the parameters (`loss.backward()`), `report` is sklearn's
`classification_report`, and `clock epoch pfx` the elapsed wall time measured
by `time.time()` around the batch loop of that call. -/
structure TorchEnv where
  lossGrad : List ℚ → List Int → List Int → ℚ → List ℚ
  report : List Int → PredArray → MacroReport
  clock : Nat → String → ℚ

/-- The `TrainingConfig` dataclass (training.py lines 34-52) after
`__post_init__`.  Fields that only feed the filesystem or the log file
(`save_path`, `model_name`, `colab`, the directory creation) are side effects
outside this embedding.  `class_names` only labels the printed report and is
omitted for the same reason. -/
structure TrainingConfig where
  model : PyModel
  loss_func : List (List ℚ) → List Int → ℚ
  training_loader : List Batch
  validation_loader : Option (List Batch) := none
  lr : ℚ := 1 / 1000
  optimizer : OptimizerField := .selector "SGD"
  epochs : Nat := 2
  device : DeviceField := .str "cpu"
  save_model : Bool := false
  zip_result : Bool := false
  classification_metrics : Bool := false
  progress_bar : Bool := true
  checkpoint_epochs : Option (List Nat) := none
  env : TorchEnv

/-- The results mapping built by `train`: metric name to the ordered series of
per-epoch values. -/
abbrev Results := List (String × List ℚ)

/-- The initialisation `results = {}` then `results[item] = []` for each
tracked item. -/
def initResults (keys : List String) : Results := keys.map (fun k => (k, []))

/-- Dictionary lookup `results[k]` as a query (no exception). -/
def lookupSeries (r : Results) (k : String) : Option (List ℚ) :=
  (r.find? (fun p => p.1 = k)).map Prod.snd

/-- Length of the series stored under a key, when the key exists. -/
def seriesLen (r : Results) (k : String) : Option Nat :=
  (lookupSeries r k).map List.length

/-- The append `results[k].append(v)`: raises `KeyError` when `k` is not a
key. -/
def appendAt (r : Results) (k : String) (v : ℚ) : Except PyError Results :=
  if r.any (fun p => p.1 = k) then
    .ok (r.map (fun p => if p.1 = k then (p.1, p.2 ++ [v]) else p))
  else .error .keyError

/-- The `np.mean` of the running losses.  numpy yields `nan` on an empty list; no
rational stands for `nan`, and no theorem below inspects the value, so the
empty case is the junk value `0`. -/
def npMean (l : List ℚ) : ℚ := l.sum / l.length

/-- The `np.argmax` over one row of scores: index of the first maximum
(`0` on an empty row, where numpy would raise). -/
def argmaxRow (r : List ℚ) : Nat :=
  match r with
  | [] => 0
  | v :: vs =>
    (vs.foldl
      (fun acc w =>
        if w > acc.1 then (w, acc.2.2, acc.2.2 + 1) else (acc.1, acc.2.1, acc.2.2 + 1))
      (v, 0, 1)).2.1

/-- The shape test `len(y_pred.shape) == 2 and y_pred.shape[1] > 1` after
`np.asarray(y_pred)`: the array is two-dimensional exactly when the rows are
uniform in length (ragged rows give a one-dimensional object array, an empty
list a shape of `(0,)`), and its second dimension is the row length. -/
def npIsMatrixWithManyCols : List (List ℚ) → Bool
  | [] => false
  | r :: rs => decide (1 < r.length) && rs.all (fun s => s.length = r.length)

/-- The post-loop conversion of accumulated predictions
(training.py lines 211-216): arg-max to hard labels on the classification
shape, raw values otherwise. -/
def convertPreds (rows : List (List ℚ)) : PredArray :=
  if npIsMatrixWithManyCols rows then .labels (rows.map argmaxRow)
  else .raw rows

/-- Data-loader selection at the top of `run_epoch`
(training.py lines 177-180).  A prefix outside training and validation leaves
the local `data_loader` unbound, so the batch loop raises `NameError`;
for the validation prefix with no configured loader, `data_loader` is `None`
and iterating it raises `TypeError`. -/
def pickLoader (cfg : TrainingConfig) (pfx : String) :
    Except PyError (List Batch) :=
  if pfx = "training" then .ok cfg.training_loader
  else if pfx = "validation" then
    match cfg.validation_loader with
    | some l => .ok l
    | none => .error .typeError
  else .error .nameError

/-- The mutable state threaded through the batch loop of `run_epoch`. -/
structure BatchLoopState where
  model : PyModel
  running_loss : List ℚ
  y_true : List Int
  y_pred : List (List ℚ)
  lastX : Option (List Int)

/-- One iteration of the batch loop of `run_epoch`
(training.py lines 185-207).  `utils.moveTo` only changes device placement,
not values.  In training mode: `loss.backward()` accumulates the gradient
into the parameter grads, `optimizer.step()` updates the parameters
(raising `AttributeError` when the optimizer field is still an unresolved
selector string), `optimizer.zero_grad()` clears the grads.  The label
accumulation guard `isinstance(y, torch.Tensor)` always holds here since
labels are embedded as tensors. -/
def runEpochBatch (cfg : TrainingConfig) (st : BatchLoopState) (b : Batch) :
    Except PyError BatchLoopState :=
  let y_hat := st.model.forward st.model.params b.x
  let loss := cfg.loss_func y_hat b.y
  let stepped : Except PyError PyModel :=
    if st.model.training then
      match cfg.optimizer with
      | .selector _ => .error .attributeError
      | .bound opt =>
        let grads := (st.model.grads.zip
          (cfg.env.lossGrad st.model.params b.x b.y loss)).map (fun p => p.1 + p.2)
        let params := opt.step st.model.params grads
        .ok { st.model with params := params, grads := grads.map (fun _ => 0) }
    else .ok st.model
  match stepped with
  | .error e => .error e
  | .ok model =>
    let y_true := if cfg.classification_metrics then st.y_true ++ b.y else st.y_true
    let y_pred := if cfg.classification_metrics then st.y_pred ++ y_hat else st.y_pred
    .ok ⟨model, st.running_loss ++ [loss], y_true, y_pred, some b.x⟩

/-- The batch loop of `run_epoch`, iterating the loader in order. -/
def runBatches (cfg : TrainingConfig) (st : BatchLoopState) :
    List Batch → Except PyError BatchLoopState
  | [] => .ok st
  | b :: bs =>
    match runEpochBatch cfg st b with
    | .error e => .error e
    | .ok st' => runBatches cfg st' bs

/-- The value triple returned by `run_epoch`. -/
structure RunEpochOut where
  time_elapsed : ℚ
  validation_result : Option Snapshot
  x : List Int

/-- A sequence of `results[k].append(v)` calls, in order, stopping at the
first raised `KeyError`. -/
def appendMany (r : Results) : List (String × ℚ) → Except PyError Results
  | [] => .ok r
  | kv :: rest =>
    match appendAt r kv.1 kv.2 with
    | .error e => .error e
    | .ok r' => appendMany r' rest

/-- The key/value appends performed at the end of `run_epoch`
(training.py lines 218-228), in source order: the four classification
metrics read from sklearn's report when `classification_metrics` is set,
then always the mean loss. -/
def metricsKVs (cfg : TrainingConfig) (pfx : String) (y_true : List Int)
    (y_pred : PredArray) (running_loss : List ℚ) : List (String × ℚ) :=
  (if cfg.classification_metrics then
    let rep := cfg.env.report y_true y_pred
    [(pfx ++ "_accuracy", rep.accuracy),
     (pfx ++ "_macro_recall", rep.macroRecall),
     (pfx ++ "_macro_precision", rep.macroPrecision),
     (pfx ++ "_macro_f1score", rep.macroF1score)]
  else []) ++ [(pfx ++ "_loss", npMean running_loss)]

/-- The metric appends of `run_epoch` when `classification_metrics` is set
(training.py lines 218-226), followed by the unconditional mean-loss append
(line 228). -/
def appendEpochMetrics (cfg : TrainingConfig) (results : Results) (pfx : String)
    (y_true : List Int) (y_pred : PredArray) (running_loss : List ℚ) :
    Except PyError Results :=
  appendMany results (metricsKVs cfg pfx y_true y_pred running_loss)

/-- The tail of `run_epoch` after the batch loop (training.py lines 209-242):
the metric and mean-loss appends, the snapshot decision and the `return`.
The final-epoch test `config.epochs - 1 == epoch` over Python integers is
rendered as `config.epochs == epoch + 1` over naturals (equivalent, since a
negative left-hand side can never equal a natural `epoch`).  When the loader
yielded no batch, the local `x` is unbound and the `return` raises
`NameError` — after the appends above already happened. -/
def runEpochFinish (cfg : TrainingConfig) (epoch : Nat) (pfx : String)
    (st : BatchLoopState) (results : Results) :
    Except PyError (TrainingConfig × Results × RunEpochOut) :=
  match appendEpochMetrics cfg results pfx st.y_true (convertPreds st.y_pred)
      st.running_loss with
  | .error e => .error e
  | .ok results =>
    match st.lastX with
    | none => .error .nameError
    | some x =>
      .ok ({ cfg with model := st.model }, results,
        ⟨cfg.env.clock epoch pfx,
          if cfg.epochs = epoch + 1 ∧ pfx = "validation" then
            some (st.y_true, convertPreds st.y_pred)
          else none,
          x⟩)

/-- The pass `run_epoch(config, results, epoch, prefix)`
(training.py lines 175-242):
select the loader, run the batch loop, then the post-loop tail.  Returns the
updated configuration (the model mutates in place in Python), the updated
results mapping, and the returned triple. -/
def run_epoch (cfg : TrainingConfig) (results : Results) (epoch : Nat)
    (pfx : String) :
    Except PyError (TrainingConfig × Results × RunEpochOut) :=
  match pickLoader cfg pfx with
  | .error e => .error e
  | .ok data_loader =>
    match runBatches cfg ⟨cfg.model, [], [], [], none⟩ data_loader with
    | .error e => .error e
    | .ok st => runEpochFinish cfg epoch pfx st results

/-- The tag of a checkpoint: the epoch index, or the final "last" tag. -/
inductive CkptTag where
  | epoch (n : Nat)
  | last
  deriving DecidableEq, Repr

/-- One call to the external `save_checkpoint` collaborator, with the
arguments the loop hands it (the config itself is implicit). -/
structure CheckpointEvent where
  tag : CkptTag
  results : Results
  validation_result : Option Snapshot
  x_sample : List Int

/-- Outcome of `train`: completion with the final configuration, results
mapping and checkpoint-event trace, or a raised exception together with the
events that had already fired. -/
inductive TrainResult where
  | ok (cfg : TrainingConfig) (results : Results) (events : List CheckpointEvent)
  | err (e : PyError) (events : List CheckpointEvent)

/-- Reading a possibly-unbound Python local: `NameError` when unbound. -/
def readName {α : Type} : Option α → Except PyError α
  | none => .error .nameError
  | some v => .ok v

/-- The tracked metric names (training.py lines 91-99): always epoch, epoch
time and training loss; validation loss only with a validation loader; with
`classification_metrics`, per metric name first the training series and then,
only with a validation loader, the validation series. -/
def toTrack (cfg : TrainingConfig) : List String :=
  ["epoch", "epoch_time", "training_loss"]
    ++ (if cfg.validation_loader.isSome then ["validation_loss"] else [])
    ++ (if cfg.classification_metrics then
          (["accuracy", "macro_recall", "macro_precision", "macro_f1score"].map
            (fun name =>
              ["training_" ++ name]
                ++ (if cfg.validation_loader.isSome then ["validation_" ++ name]
                    else []))).flatten
        else [])

/-- The loop state of `train`: the configuration (whose model mutates), the
results mapping, the Python locals `validation_result` and `x_sample`
(`none` while still unbound), the running total of training time, and the
checkpoint events fired so far. -/
structure LoopState where
  cfg : TrainingConfig
  results : Results
  validation_result : Option (Option Snapshot)
  x_sample : Option (List Int)
  time_training : ℚ
  events : List CheckpointEvent

/-- Whether this epoch triggers a checkpoint (training.py line 125):
`config.checkpoint_epochs is not None and epoch in config.checkpoint_epochs`. -/
def inCkpt (cfg : TrainingConfig) (epoch : Nat) : Bool :=
  match cfg.checkpoint_epochs with
  | some l => epoch ∈ l
  | none => false

/-- The validation half of one epoch iteration (training.py lines 115-120):
when a validation loader is configured, switch the model to evaluation mode
and run the validation epoch inside `torch.no_grad()` (no observable effect
beyond the mode switch here), binding the Python local `validation_result`;
otherwise that local keeps its previous (possibly unbound) state. -/
def validationPhase (cfg : TrainingConfig) (results : Results) (epoch : Nat)
    (prev : Option (Option Snapshot)) :
    Except PyError (TrainingConfig × Results × Option (Option Snapshot)) :=
  match cfg.validation_loader with
  | some _ =>
    match run_epoch { cfg with model := { cfg.model with training := false } }
        results epoch "validation" with
    | .error e => .error e
    | .ok (cfg4, results4, vout) => .ok (cfg4, results4, some vout.validation_result)
  | none => .ok (cfg, results, prev)

/-- The bookkeeping half of one epoch iteration (training.py lines 122-126):
append the epoch number (`epoch + 1`) and the epoch time to the results, and
fire a checkpoint when the epoch is in the configured checkpoint set —
evaluating `validation_result` first, which raises `NameError` if it was
never bound. -/
def epochTail (st : LoopState) (epoch : Nat) (cfg5 : TrainingConfig)
    (results5 : Results) (valRes : Option (Option Snapshot))
    (x_sample : List Int) (epoch_time : ℚ) : Except PyError LoopState :=
  match appendAt results5 "epoch" ((epoch : ℚ) + 1) with
  | .error e => .error e
  | .ok results6 =>
    match appendAt results6 "epoch_time" epoch_time with
    | .error e => .error e
    | .ok results7 =>
      if inCkpt cfg5 epoch then
        match readName valRes with
        | .error e => .error e
        | .ok vr =>
          .ok ⟨cfg5, results7, valRes, some x_sample,
            st.time_training + epoch_time,
            st.events ++ [⟨.epoch epoch, results7, vr, x_sample⟩]⟩
      else
        .ok ⟨cfg5, results7, valRes, some x_sample,
          st.time_training + epoch_time, st.events⟩

/-- One iteration of the epoch loop of `train` (training.py lines 110-126):
switch to training mode, run the training epoch, slice the sample input
(`x_sample[0, :]` raises `IndexError` on an empty batch; `.unsqueeze(0)`
re-wraps the row), then the validation phase and the bookkeeping tail. -/
def epochBody (st : LoopState) (epoch : Nat) : Except PyError LoopState :=
  match run_epoch { st.cfg with model := { st.cfg.model with training := true } }
      st.results epoch "training" with
  | .error e => .error e
  | .ok (cfg2, results2, out) =>
    match out.x.head? with
    | none => .error .indexError
    | some v =>
      match validationPhase cfg2 results2 epoch st.validation_result with
      | .error e => .error e
      | .ok (cfg5, results5, valRes) =>
        epochTail st epoch cfg5 results5 valRes [v] out.time_elapsed

/-- The final checkpoint after the epoch loop (training.py lines 128-129):
when `save_model` is set, `save_checkpoint("last", ...)` reads
`validation_result` and then `x_sample`, raising `NameError` when the one
read first is unbound. -/
def finalCheckpoint (st : LoopState) : Except PyError (List CheckpointEvent) :=
  if st.cfg.save_model then
    match readName st.validation_result with
    | .error e => .error e
    | .ok vr =>
      match readName st.x_sample with
      | .error e => .error e
      | .ok xs => .ok (st.events ++ [⟨.last, st.results, vr, xs⟩])
  else .ok st.events

/-- The classification reporting tail (training.py lines 131-161): when
`classification_metrics` is set, the unpacking
`y_true, y_pred = validation_result` raises `NameError` when the local is
unbound and `TypeError` when it is bound to `None`; the confusion matrix,
baseline and report writers it feeds are external collaborators.  The
closing log lines, latency and size measurements and `zip_results`
(lines 163-172) are external effects with no bearing on the returned
state. -/
def classificationTail (st : LoopState) (events : List CheckpointEvent) :
    TrainResult :=
  if st.cfg.classification_metrics then
    match st.validation_result with
    | none => .err .nameError events
    | some none => .err .typeError events
    | some (some _) => .ok st.cfg st.results events
  else .ok st.cfg st.results events

/-- The tail of `train` after the epoch loop (training.py lines 128-172):
the final checkpoint, then the classification reporting tail. -/
def trainFinish (st : LoopState) : TrainResult :=
  match finalCheckpoint st with
  | .error e => .err e st.events
  | .ok events => classificationTail st events

/-- The epoch loop of `train` over the remaining epoch indices. -/
def trainLoop (st : LoopState) : List Nat → TrainResult
  | [] => trainFinish st
  | e :: rest =>
    match epochBody st e with
    | .error pe => .err pe st.events
    | .ok st' => trainLoop st' rest

/-- The entry point `train(config)` (training.py lines 89-172): build the
tracked series,
move the model to the device (placement only — parameters unchanged), then
iterate the epochs `0, ..., epochs - 1` and finish. -/
def train (cfg : TrainingConfig) : TrainResult :=
  trainLoop ⟨cfg, initResults (toTrack cfg), none, none, 0, []⟩
    (List.range cfg.epochs)

/-- The external collaborator `torch.optim.AdamW(params, lr)`.  Its update
rule lives outside the repository and no theorem below inspects it; only the
fact that construction binds some optimizer object matters here. -/
def torchOptimAdamW (lr : ℚ) : TorchOptimizer :=
  ⟨fun params grads => (params.zip grads).map (fun pg => pg.1 - lr * pg.2)⟩

/-- Concrete external collaborators for closed test runs. -/
def testEnv : TorchEnv :=
  ⟨fun params _ _ _ => params.map (fun _ => 1),
   fun _ _ => ⟨1, 1, 1, 1⟩,
   fun _ _ => 0⟩

/-- A concrete two-class model with one parameter, for closed test runs. -/
def testModel (training : Bool) : PyModel :=
  ⟨[0], [0], training, fun _ xs => xs.map (fun _ => [0, 1])⟩

/-- A concrete one-row batch for closed test runs. -/
def testBatch : Batch := ⟨[5], [1]⟩

/-- A concrete constant loss collaborator for closed test runs. -/
def testLoss : List (List ℚ) → List Int → ℚ := fun _ _ => 1

/-- Claim C1, as stated, is false: an optimizer selector outside SGD and
AdamW is not replaced by any bound optimizer.  At the concrete selector
"Adam", `__post_init__` leaves the field as the raw string. -/
theorem C1_counterexample :
    ¬ ∃ o, resolveOptimizer torchOptimSGD torchOptimAdamW "Adam" (1 / 1000) =
      OptimizerField.bound o := by
  rintro ⟨o, ho⟩
  rw [show resolveOptimizer torchOptimSGD torchOptimAdamW "Adam" (1 / 1000) =
      OptimizerField.selector "Adam" from rfl] at ho
  exact OptimizerField.noConfusion ho

/-- Claim C1 (corrected): for every optimizer selector outside SGD and AdamW,
`TrainingConfig.__post_init__` performs no fallback and logs nothing — the
`optimizer` field keeps the raw selector string, so a subsequent train run
does not degrade gracefully: the first training batch raises
`AttributeError` when `config.optimizer.step()` is called on the string. -/
theorem C1_unrecognized_optimizer (sgdCtor adamwCtor : ℚ → TorchOptimizer)
    (s : String) (lr : ℚ) (h1 : s ≠ "SGD") (h2 : s ≠ "AdamW") :
    resolveOptimizer sgdCtor adamwCtor s lr = OptimizerField.selector s ∧
    ∀ cfg : TrainingConfig, ∀ results epoch,
      cfg.optimizer = OptimizerField.selector s →
      cfg.model.training = true →
      cfg.training_loader ≠ [] →
      run_epoch cfg results epoch "training" = .error .attributeError := by
  constructor
  · simp [resolveOptimizer, h1, h2]
  · intro cfg results epoch hopt htrain hload
    match hl : cfg.training_loader with
    | [] => exact absurd hl hload
    | b :: bs =>
      simp [run_epoch, pickLoader, hl, runBatches, runEpochBatch, htrain, hopt]

/-- Witness for the corrected claim C1 at the selector "Adam". -/
theorem C1_unrecognized_optimizer_witness :
    resolveOptimizer torchOptimSGD torchOptimAdamW "Adam" (1 / 1000) =
      OptimizerField.selector "Adam" := by
  exact (C1_unrecognized_optimizer torchOptimSGD torchOptimAdamW "Adam" (1 / 1000)
    (by decide) (by decide)).1

/-- Claim C9: after device resolution, the device is one of exactly the two
concrete values cpu and cuda:0; the `elif` condition
`self.device == "cpu" or torch.device("cpu")` is always truthy, so every
selector other than "gpu"/cuda:0 resolves to cpu and the
"device ... is not available" branch is unreachable. -/
theorem C9_device_always_resolved (device : DeviceField) (cudaAvailable : Bool) :
    ((resolveDevice device cudaAvailable).1 = .dev .cpu ∨
      (resolveDevice device cudaAvailable).1 = .dev .cuda0) ∧
    (¬ (device = .str "gpu" ∨ device = .dev .cuda0) →
      (resolveDevice device cudaAvailable).1 = .dev .cpu) ∧
    (device = .str "cpu" ∨ truthyTorchDeviceCpu = true) := by
  refine ⟨?_, ?_, Or.inr rfl⟩
  · by_cases h : device = .str "gpu" ∨ device = .dev .cuda0
    · cases cudaAvailable <;> simp [resolveDevice, h]
    · simp [resolveDevice, h, truthyTorchDeviceCpu]
  · intro h
    simp [resolveDevice, h, truthyTorchDeviceCpu]

/-- Witness for claim C9: the unrecognized selector "tpu" resolves to cpu,
with cuda available. -/
theorem C9_device_always_resolved_witness :
    (resolveDevice (.str "tpu") true).1 = .dev .cpu := by
  exact (C9_device_always_resolved (.str "tpu") true).2.1 (by decide)

/-- Claim C10: `run_epoch` is total only under the precondition that the
prefix is training or validation — any other prefix leaves `data_loader`
unbound and the call raises `NameError`; moreover the unbound-loader error
branch of the selection is taken exactly when the precondition fails (the
validation prefix with a `None` loader raises `TypeError`, a different
error). -/
theorem C10_prefix_precondition (cfg : TrainingConfig) (results : Results)
    (epoch : Nat) (pfx : String) :
    (pfx ≠ "training" → pfx ≠ "validation" →
      run_epoch cfg results epoch pfx = .error .nameError) ∧
    (pickLoader cfg pfx = .error .nameError ↔
      (pfx ≠ "training" ∧ pfx ≠ "validation")) := by
  constructor
  · intro h1 h2
    simp [run_epoch, pickLoader, h1, h2]
  · constructor
    · intro h
      by_cases h1 : pfx = "training"
      · simp [pickLoader, h1] at h
      · by_cases h2 : pfx = "validation"
        · rcases hv : cfg.validation_loader with _ | l <;>
            simp [pickLoader, h1, h2, hv] at h
        · exact ⟨h1, h2⟩
    · rintro ⟨h1, h2⟩
      simp [pickLoader, h1, h2]

/-- Witness for claim C10 at the concrete prefix "batch". -/
theorem C10_prefix_precondition_witness :
    run_epoch
      ⟨testModel true, testLoss, [testBatch], none, 1 / 1000,
        .bound (torchOptimSGD (1 / 1000)), 1, .str "cpu", false, false, false,
        true, none, testEnv⟩
      [] 0 "batch" = .error .nameError := by
  exact (C10_prefix_precondition _ [] 0 "batch").1 (by decide) (by decide)

/-- A concrete configuration with a validation loader and one epoch, for the
closed snapshot witness. -/
def cfgC6 : TrainingConfig :=
  ⟨testModel false, testLoss, [testBatch], some [testBatch], 1 / 1000,
    .bound (torchOptimSGD (1 / 1000)), 1, .str "cpu", false, false, false,
    true, none, testEnv⟩

/-- Claim C6: a successful `run_epoch` call returns the accumulated
(true labels, predictions) pair as its validation snapshot exactly when this
is the final configured epoch and the prefix is "validation"; in every other
case the snapshot component is absent. -/
theorem C6_snapshot_condition (cfg : TrainingConfig) (results : Results)
    (epoch : Nat) (pfx : String) (c' : TrainingConfig) (r' : Results)
    (out : RunEpochOut)
    (h : run_epoch cfg results epoch pfx = .ok (c', r', out)) :
    (∃ s, out.validation_result = some s) ↔
      (cfg.epochs = epoch + 1 ∧ pfx = "validation") := by
  unfold run_epoch at h
  split at h
  · simp at h
  · split at h
    · simp at h
    · unfold runEpochFinish at h
      split at h
      · simp at h
      · split at h
        · simp at h
        · simp only [Except.ok.injEq, Prod.mk.injEq] at h
          obtain ⟨-, -, hout⟩ := h
          subst hout
          by_cases hc : cfg.epochs = epoch + 1 ∧ pfx = "validation"
          · simp only [if_pos hc]
            exact iff_of_true ⟨_, rfl⟩ hc
          · simp only [if_neg hc]
            exact iff_of_false (by simp) hc

/-- Witness for claim C6: a one-epoch validation call at epoch 0 returns a
snapshot. -/
theorem C6_snapshot_condition_witness :
    ∃ c' r' out,
      run_epoch cfgC6 [("validation_loss", [])] 0 "validation" =
        .ok (c', r', out) ∧
      ∃ s, out.validation_result = some s := by
  have hok : (match run_epoch cfgC6 [("validation_loss", [])] 0 "validation" with
      | .ok _ => true
      | .error _ => false) = true := by decide
  rcases hrun : run_epoch cfgC6 [("validation_loss", [])] 0 "validation" with e | v
  · rw [hrun] at hok
    simp at hok
  · obtain ⟨c', r', out⟩ := v
    exact ⟨c', r', out, rfl,
      (C6_snapshot_condition _ _ 0 "validation" _ _ _ hrun).mpr ⟨rfl, rfl⟩⟩

/-- One batch step in evaluation mode leaves the model untouched: the
backward/step/zero-grad block is guarded by `config.model.training`. -/
theorem runEpochBatch_eval (cfg : TrainingConfig) (st : BatchLoopState)
    (b : Batch) (st' : BatchLoopState)
    (h : runEpochBatch cfg st b = .ok st')
    (hev : st.model.training = false) :
    st'.model = st.model := by
  unfold runEpochBatch at h
  simp only [hev, Bool.false_eq_true, if_false] at h
  simp only [Except.ok.injEq] at h
  subst h
  rfl

/-- The whole batch loop in evaluation mode leaves the model untouched. -/
theorem runBatches_eval (cfg : TrainingConfig) :
    ∀ (bs : List Batch) (st st' : BatchLoopState),
      runBatches cfg st bs = .ok st' → st.model.training = false →
      st'.model = st.model := by
  intro bs
  induction bs with
  | nil =>
    intro st st' h _
    unfold runBatches at h
    simp only [Except.ok.injEq] at h
    rw [h]
  | cons b bs ih =>
    intro st st' h hev
    unfold runBatches at h
    cases hb : runEpochBatch cfg st b with
    | error e => rw [hb] at h; simp at h
    | ok st1 =>
      rw [hb] at h
      have hm := runEpochBatch_eval cfg st b st1 hb hev
      have := ih st1 st' h (by rw [hm]; exact hev)
      rw [this, hm]

/-- Claim C5: a successful `run_epoch` call made while the model is in
evaluation mode leaves every parameter (and gradient slot) unchanged —
no backward pass, optimizer step or gradient reset runs. -/
theorem C5_eval_mode_frame (cfg : TrainingConfig) (results : Results)
    (epoch : Nat) (pfx : String) (c' : TrainingConfig) (r' : Results)
    (out : RunEpochOut)
    (h : run_epoch cfg results epoch pfx = .ok (c', r', out))
    (hev : cfg.model.training = false) :
    c'.model.params = cfg.model.params ∧ c'.model.grads = cfg.model.grads := by
  unfold run_epoch at h
  split at h
  · simp at h
  · rename_i dl hdl
    split at h
    · simp at h
    · rename_i st hst
      have hm : st.model = cfg.model :=
        runBatches_eval cfg dl ⟨cfg.model, [], [], [], none⟩ st hst hev
      unfold runEpochFinish at h
      split at h
      · simp at h
      · split at h
        · simp at h
        · simp only [Except.ok.injEq, Prod.mk.injEq] at h
          obtain ⟨hcfg, -, -⟩ := h
          rw [← hcfg, hm]
          exact ⟨rfl, rfl⟩

/-- Witness for claim C5: an evaluation-mode pass over one batch. -/
theorem C5_eval_mode_frame_witness :
    ∃ c' r' out,
      run_epoch cfgC6 [("validation_loss", [])] 0 "validation" =
        .ok (c', r', out) ∧
      c'.model.params = cfgC6.model.params ∧
      c'.model.grads = cfgC6.model.grads := by
  have hok : (match run_epoch cfgC6 [("validation_loss", [])] 0 "validation" with
      | .ok _ => true
      | .error _ => false) = true := by decide
  rcases hrun : run_epoch cfgC6 [("validation_loss", [])] 0 "validation" with e | v
  · rw [hrun] at hok
    simp at hok
  · obtain ⟨c', r', out⟩ := v
    exact ⟨c', r', out, rfl,
      C5_eval_mode_frame _ _ 0 "validation" _ _ _ hrun rfl⟩

/-- Left-cancellation of string append, for telling apart the series keys
built as `prefix + suffix`. -/
theorem strAppend_ne (p : String) {a b : String} (h : a ≠ b) :
    p ++ a ≠ p ++ b := by
  intro hc
  exact h (String.ext (List.append_cancel_left
    ((String.data_append p a).symm.trans
      ((congrArg String.data hc).trans (String.data_append p b)))))

/-- A successful `appendAt` is the pointwise series update. -/
theorem appendAt_ok_eq (r : Results) (k : String) (v : ℚ) (r' : Results)
    (h : appendAt r k v = .ok r') :
    r' = r.map (fun p => if p.1 = k then (p.1, p.2 ++ [v]) else p) := by
  unfold appendAt at h
  split at h
  · simp only [Except.ok.injEq] at h
    exact h.symm
  · simp at h

/-- The series update leaves every other key's series unchanged. -/
theorem lookupSeries_update_ne (r : Results) (k k' : String) (v : ℚ)
    (hne : k' ≠ k) :
    lookupSeries (r.map (fun p => if p.1 = k then (p.1, p.2 ++ [v]) else p)) k' =
      lookupSeries r k' := by
  induction r with
  | nil => rfl
  | cons p ps ih =>
    by_cases hk : p.1 = k <;> by_cases hp : p.1 = k'
    · exact absurd (hp.symm.trans hk) hne
    · simp only [lookupSeries, List.map_cons, if_pos hk] at ih ⊢
      rw [List.find?_cons_of_neg _ (by simpa using hp),
        List.find?_cons_of_neg _ (by simpa using hp)]
      exact ih
    · simp only [lookupSeries, List.map_cons, if_neg hk]
      rw [List.find?_cons_of_pos _ (by simpa using hp),
        List.find?_cons_of_pos _ (by simpa using hp)]
    · simp only [lookupSeries, List.map_cons, if_neg hk] at ih ⊢
      rw [List.find?_cons_of_neg _ (by simpa using hp),
        List.find?_cons_of_neg _ (by simpa using hp)]
      exact ih

/-- The series update appends one value at the updated key. -/
theorem lookupSeries_update_eq (r : Results) (k : String) (v : ℚ) :
    lookupSeries (r.map (fun p => if p.1 = k then (p.1, p.2 ++ [v]) else p)) k =
      (lookupSeries r k).map (fun l => l ++ [v]) := by
  induction r with
  | nil => rfl
  | cons p ps ih =>
    by_cases hk : p.1 = k
    · simp only [lookupSeries, List.map_cons, if_pos hk]
      rw [List.find?_cons_of_pos _ (by simpa using hk),
        List.find?_cons_of_pos _ (by simpa using hk)]
      rfl
    · simp only [lookupSeries, List.map_cons, if_neg hk] at ih ⊢
      rw [List.find?_cons_of_neg _ (by simpa using hk),
        List.find?_cons_of_neg _ (by simpa using hk)]
      exact ih

/-- The series update preserves the key set. -/
theorem map_fst_update (r : Results) (k : String) (v : ℚ) :
    (r.map (fun p => if p.1 = k then (p.1, p.2 ++ [v]) else p)).map Prod.fst =
      r.map Prod.fst := by
  induction r with
  | nil => rfl
  | cons p ps ih =>
    by_cases hk : p.1 = k <;> simp [hk, ih]

/-- The append `appendAt` succeeds exactly on present keys. -/
theorem appendAt_ok_of_mem (r : Results) (k : String) (v : ℚ)
    (hmem : k ∈ r.map Prod.fst) : ∃ r', appendAt r k v = .ok r' := by
  have hany : r.any (fun p => p.1 = k) = true := by
    rw [List.any_eq_true]
    obtain ⟨p, hp, hfst⟩ := List.mem_map.1 hmem
    exact ⟨p, hp, by simp [hfst]⟩
  exact ⟨_, by unfold appendAt; rw [if_pos hany]⟩

/-- A successful `appendMany` preserves the key set. -/
theorem appendMany_ok_fst :
    ∀ (kvs : List (String × ℚ)) (r r' : Results),
      appendMany r kvs = .ok r' → r'.map Prod.fst = r.map Prod.fst := by
  intro kvs
  induction kvs with
  | nil =>
    intro r r' h
    unfold appendMany at h
    simp only [Except.ok.injEq] at h
    rw [h]
  | cons kv rest ih =>
    intro r r' h
    unfold appendMany at h
    cases hb : appendAt r kv.1 kv.2 with
    | error e => rw [hb] at h; simp at h
    | ok r1 =>
      rw [hb] at h
      rw [ih r1 r' h, appendAt_ok_eq _ _ _ _ hb, map_fst_update]

/-- A successful `appendMany` leaves keys outside its list unchanged. -/
theorem appendMany_ok_lookup_ne :
    ∀ (kvs : List (String × ℚ)) (r r' : Results) (k : String),
      appendMany r kvs = .ok r' → (∀ kv ∈ kvs, k ≠ kv.1) →
      lookupSeries r' k = lookupSeries r k := by
  intro kvs
  induction kvs with
  | nil =>
    intro r r' k h _
    unfold appendMany at h
    simp only [Except.ok.injEq] at h
    rw [h]
  | cons kv rest ih =>
    intro r r' k h hk
    unfold appendMany at h
    cases hb : appendAt r kv.1 kv.2 with
    | error e => rw [hb] at h; simp at h
    | ok r1 =>
      rw [hb] at h
      rw [ih r1 r' k h (fun kv' hkv' => hk kv' (List.mem_cons_of_mem kv hkv')),
        appendAt_ok_eq _ _ _ _ hb,
        lookupSeries_update_ne _ _ _ _ (hk kv (List.mem_cons_self kv rest))]

/-- A successful `appendMany` grows a key's series by the number of list
entries carrying that key. -/
theorem appendMany_ok_len :
    ∀ (kvs : List (String × ℚ)) (r r' : Results) (k : String),
      appendMany r kvs = .ok r' →
      seriesLen r' k = (seriesLen r k).map
        (fun n => n + (kvs.filter (fun kv => kv.1 = k)).length) := by
  intro kvs
  induction kvs with
  | nil =>
    intro r r' k h
    unfold appendMany at h
    simp only [Except.ok.injEq] at h
    subst h
    unfold seriesLen
    cases lookupSeries r k <;> simp
  | cons kv rest ih =>
    intro r r' k h
    unfold appendMany at h
    cases hb : appendAt r kv.1 kv.2 with
    | error e => rw [hb] at h; simp at h
    | ok r1 =>
      rw [hb] at h
      have hrec := ih r1 r' k h
      by_cases hkk : kv.1 = k
      · have h1 : seriesLen r1 k = (seriesLen r k).map (fun n => n + 1) := by
          unfold seriesLen
          rw [appendAt_ok_eq _ _ _ _ hb, hkk, lookupSeries_update_eq]
          cases lookupSeries r k <;> simp
        rw [hrec, h1]
        have hf : (List.filter (fun kv => kv.1 = k) (kv :: rest)).length =
            (List.filter (fun kv => kv.1 = k) rest).length + 1 := by
          simp [List.filter_cons, hkk]
        rw [hf]
        rcases hx : seriesLen r k with _ | n
        · simp
        · simp only [Option.map_some', Option.some.injEq]
          omega
      · have h1 : seriesLen r1 k = seriesLen r k := by
          unfold seriesLen
          rw [appendAt_ok_eq _ _ _ _ hb,
            lookupSeries_update_ne _ _ _ _ (fun hc => hkk hc.symm)]
        have hf : (List.filter (fun kv => kv.1 = k) (kv :: rest)).length =
            (List.filter (fun kv => kv.1 = k) rest).length := by
          simp [List.filter_cons, hkk]
        rw [hrec, h1, hf]

/-- The sequence `appendMany` succeeds whenever all its keys are present. -/
theorem appendMany_ok_of_keys :
    ∀ (kvs : List (String × ℚ)) (r : Results),
      (∀ kv ∈ kvs, kv.1 ∈ r.map Prod.fst) →
      ∃ r', appendMany r kvs = .ok r' := by
  intro kvs
  induction kvs with
  | nil => intro r _; exact ⟨r, rfl⟩
  | cons kv rest ih =>
    intro r hkeys
    obtain ⟨r1, hr1⟩ := appendAt_ok_of_mem r kv.1 kv.2
      (hkeys kv (List.mem_cons_self kv rest))
    have hkeys1 : ∀ kv' ∈ rest, kv'.1 ∈ r1.map Prod.fst := by
      intro kv' hkv'
      rw [appendAt_ok_eq _ _ _ _ hr1, map_fst_update]
      exact hkeys kv' (List.mem_cons_of_mem kv hkv')
    obtain ⟨r', hr'⟩ := ih r1 hkeys1
    refine ⟨r', ?_⟩
    unfold appendMany
    rw [hr1]
    exact hr'

/-- Every key appended by the `run_epoch` tail is one of the five
prefix-derived series keys. -/
theorem metricsKVs_keys (cfg : TrainingConfig) (pfx : String) (yt : List Int)
    (yp : PredArray) (rl : List ℚ) :
    ∀ kv ∈ metricsKVs cfg pfx yt yp rl,
      kv.1 = pfx ++ "_accuracy" ∨ kv.1 = pfx ++ "_macro_recall" ∨
      kv.1 = pfx ++ "_macro_precision" ∨ kv.1 = pfx ++ "_macro_f1score" ∨
      kv.1 = pfx ++ "_loss" := by
  intro kv hkv
  unfold metricsKVs at hkv
  by_cases hcm : cfg.classification_metrics <;> simp [hcm] at hkv
  · rcases hkv with h | h | h | h | h <;> rw [h] <;> simp
  · rw [hkv]
    simp

/-- The `run_epoch` tail appends exactly one entry under the loss key. -/
theorem metricsKVs_filter_loss (cfg : TrainingConfig) (pfx : String)
    (yt : List Int) (yp : PredArray) (rl : List ℚ) :
    ((metricsKVs cfg pfx yt yp rl).filter
      (fun kv => kv.1 = pfx ++ "_loss")).length = 1 := by
  unfold metricsKVs
  by_cases hcm : cfg.classification_metrics
  · have h1 : (pfx ++ "_accuracy" = pfx ++ "_loss") = False :=
      eq_false (strAppend_ne pfx (by decide))
    have h2 : (pfx ++ "_macro_recall" = pfx ++ "_loss") = False :=
      eq_false (strAppend_ne pfx (by decide))
    have h3 : (pfx ++ "_macro_precision" = pfx ++ "_loss") = False :=
      eq_false (strAppend_ne pfx (by decide))
    have h4 : (pfx ++ "_macro_f1score" = pfx ++ "_loss") = False :=
      eq_false (strAppend_ne pfx (by decide))
    simp [hcm, List.filter_cons, h1, h2, h3, h4]
  · simp [hcm, List.filter_cons]

/-- Destructuring a successful `run_epoch`: the returned configuration is the
input one with only the model replaced, and the returned results mapping is
the input one extended by the prefix-keyed appends of the tail. -/
theorem run_epoch_ok_elim (cfg : TrainingConfig) (r : Results) (epoch : Nat)
    (pfx : String) (c' : TrainingConfig) (r' : Results) (out : RunEpochOut)
    (h : run_epoch cfg r epoch pfx = .ok (c', r', out)) :
    (∃ m, c' = { cfg with model := m }) ∧
    ∃ yt yp rl, appendMany r (metricsKVs cfg pfx yt yp rl) = .ok r' := by
  unfold run_epoch at h
  split at h
  · simp at h
  · split at h
    · simp at h
    · rename_i st hst
      unfold runEpochFinish at h
      split at h
      · simp at h
      · rename_i r2 hr2
        split at h
        · simp at h
        · simp only [Except.ok.injEq, Prod.mk.injEq] at h
          obtain ⟨hcfg, hres, -⟩ := h
          refine ⟨⟨st.model, hcfg.symm⟩,
            st.y_true, convertPreds st.y_pred, st.running_loss, ?_⟩
          rw [← hres]
          exact hr2

/-- Destructuring a successful validation phase. -/
theorem validationPhase_ok_spec (cfg : TrainingConfig) (results : Results)
    (epoch : Nat) (prev : Option (Option Snapshot)) (cfg5 : TrainingConfig)
    (results5 : Results) (valRes : Option (Option Snapshot))
    (h : validationPhase cfg results epoch prev = .ok (cfg5, results5, valRes)) :
    (∃ m, cfg5 = { cfg with model := m }) ∧
    (cfg.validation_loader = none → results5 = results ∧ valRes = prev) ∧
    (cfg.validation_loader.isSome →
      ∃ yt yp rl, appendMany results (metricsKVs cfg "validation" yt yp rl) =
        .ok results5) := by
  unfold validationPhase at h
  split at h
  · rename_i l hl
    split at h
    · simp at h
    · rename_i v hrun
      obtain ⟨cfg4, results4, vout⟩ := v
      simp only [Except.ok.injEq, Prod.mk.injEq] at h
      obtain ⟨hc, hr, -⟩ := h
      obtain ⟨⟨m, hm⟩, hyp⟩ := run_epoch_ok_elim _ _ _ _ _ _ _ hrun
      refine ⟨⟨m, by rw [← hc, hm]⟩, ?_, ?_⟩
      · intro hnone
        rw [hl] at hnone
        exact Option.noConfusion hnone
      · intro _
        rw [← hr]
        exact hyp
  · rename_i hl
    simp only [Except.ok.injEq, Prod.mk.injEq] at h
    obtain ⟨hc, hr, hv⟩ := h
    refine ⟨⟨cfg.model, by rw [← hc]⟩, fun _ => ⟨hr.symm, hv.symm⟩, ?_⟩
    intro hsome
    rw [hl] at hsome
    exact absurd hsome (by simp)

/-- Destructuring a successful epoch tail: the epoch and epoch-time series
each gain one entry, other keys are untouched, and one checkpoint event
fires exactly when the epoch is in the configured checkpoint set. -/
theorem epochTail_ok_spec (st : LoopState) (epoch : Nat)
    (cfg5 : TrainingConfig) (results5 : Results)
    (valRes : Option (Option Snapshot)) (xs : List Int) (t : ℚ)
    (st' : LoopState)
    (h : epochTail st epoch cfg5 results5 valRes xs t = .ok st') :
    st'.cfg = cfg5 ∧ st'.validation_result = valRes ∧
    lookupSeries st'.results "epoch" =
      (lookupSeries results5 "epoch").map (fun l => l ++ [(epoch : ℚ) + 1]) ∧
    seriesLen st'.results "epoch_time" =
      (seriesLen results5 "epoch_time").map (fun n => n + 1) ∧
    (∀ k, k ≠ "epoch" → k ≠ "epoch_time" →
      lookupSeries st'.results k = lookupSeries results5 k) ∧
    st'.results.map Prod.fst = results5.map Prod.fst ∧
    st'.events.map CheckpointEvent.tag =
      st.events.map CheckpointEvent.tag ++
        (if inCkpt cfg5 epoch then [CkptTag.epoch epoch] else []) := by
  unfold epochTail at h
  split at h
  · simp at h
  · rename_i results6 h6
    split at h
    · simp at h
    · rename_i results7 h7
      have hres : st'.results = results7 ∧ st'.cfg = cfg5 ∧
          st'.validation_result = valRes ∧
          st'.events.map CheckpointEvent.tag =
            st.events.map CheckpointEvent.tag ++
              (if inCkpt cfg5 epoch then [CkptTag.epoch epoch] else []) := by
        split at h
        · rename_i hck
          split at h
          · simp at h
          · simp only [Except.ok.injEq] at h
            subst h
            simp [hck]
        · rename_i hck
          simp only [Except.ok.injEq] at h
          subst h
          simp [hck]
      obtain ⟨hr, hcfg, hval, hev⟩ := hres
      refine ⟨hcfg, hval, ?_, ?_, ?_, ?_, hev⟩
      · rw [hr, appendAt_ok_eq _ _ _ _ h7, lookupSeries_update_ne _ _ _ _
          (by decide), appendAt_ok_eq _ _ _ _ h6, lookupSeries_update_eq]
      · rw [hr]
        unfold seriesLen
        rw [appendAt_ok_eq _ _ _ _ h7, lookupSeries_update_eq,
          appendAt_ok_eq _ _ _ _ h6, lookupSeries_update_ne _ _ _ _ (by decide)]
        cases lookupSeries results5 "epoch_time" <;> simp
      · intro k hk1 hk2
        rw [hr, appendAt_ok_eq _ _ _ _ h7, lookupSeries_update_ne _ _ _ _ hk2,
          appendAt_ok_eq _ _ _ _ h6, lookupSeries_update_ne _ _ _ _ hk1]
      · rw [hr, appendAt_ok_eq _ _ _ _ h7, map_fst_update,
          appendAt_ok_eq _ _ _ _ h6, map_fst_update]

/-- Destructuring one successful epoch iteration of `train`: only the model
changes in the configuration, the epoch series gains the entry `epoch + 1`,
the epoch-time series gains one entry, the validation-loss series gains one
entry exactly when a validation loader is configured, the key set is
unchanged, `validation_result` keeps its previous state when no validation
loader is configured, and one checkpoint event fires exactly when the epoch
is in the configured checkpoint set. -/
theorem epochBody_ok_spec (st : LoopState) (epoch : Nat) (st' : LoopState)
    (h : epochBody st epoch = .ok st') :
    (∃ m, st'.cfg = { st.cfg with model := m }) ∧
    lookupSeries st'.results "epoch" =
      (lookupSeries st.results "epoch").map (fun l => l ++ [(epoch : ℚ) + 1]) ∧
    seriesLen st'.results "epoch_time" =
      (seriesLen st.results "epoch_time").map (fun n => n + 1) ∧
    (st.cfg.validation_loader.isSome →
      seriesLen st'.results "validation_loss" =
        (seriesLen st.results "validation_loss").map (fun n => n + 1)) ∧
    (st.cfg.validation_loader = none →
      st'.validation_result = st.validation_result) ∧
    st'.results.map Prod.fst = st.results.map Prod.fst ∧
    st'.events.map CheckpointEvent.tag =
      st.events.map CheckpointEvent.tag ++
        (if inCkpt st.cfg epoch then [CkptTag.epoch epoch] else []) := by
  unfold epochBody at h
  split at h
  · simp at h
  · rename_i cfg2 results2 out hrun
    split at h
    · simp at h
    · rename_i v hv
      split at h
      · simp at h
      · rename_i cfg5 results5 valRes hvp
        obtain ⟨hcm2, htr⟩ := run_epoch_ok_elim _ _ _ _ _ _ _ hrun
        obtain ⟨m2, hm2⟩ := hcm2
        obtain ⟨yt, yp, rl, happ⟩ := htr
        obtain ⟨⟨m5, hm5⟩, hnone, hsome⟩ :=
          validationPhase_ok_spec _ _ _ _ _ _ _ hvp
        obtain ⟨hcfg', hval', hep, het, hother, hfst, hev⟩ :=
          epochTail_ok_spec _ _ _ _ _ _ _ _ h
        have hvl2 : cfg2.validation_loader = st.cfg.validation_loader := by
          rw [hm2]
        have hdisjT : ∀ k : String, k = "epoch" ∨ k = "epoch_time" ∨
            k = "validation_loss" →
            lookupSeries results2 k = lookupSeries st.results k := by
          intro k hk
          refine appendMany_ok_lookup_ne _ _ _ _ happ ?_
          intro kv hkv
          rcases metricsKVs_keys _ _ _ _ _ kv hkv with h' | h' | h' | h' | h' <;>
            rw [h'] <;> rcases hk with rfl | rfl | rfl <;> decide
        have hT25 : ∀ k : String, k = "epoch" ∨ k = "epoch_time" →
            lookupSeries results5 k = lookupSeries results2 k := by
          intro k hk
          rcases hvl : st.cfg.validation_loader with _ | vl
          · obtain ⟨hr5, -⟩ := hnone (hvl2.trans hvl)
            rw [hr5]
          · obtain ⟨yt2, yp2, rl2, happ2⟩ := hsome (by rw [hvl2, hvl]; rfl)
            refine appendMany_ok_lookup_ne _ _ _ _ happ2 ?_
            intro kv hkv
            rcases metricsKVs_keys _ _ _ _ _ kv hkv with h' | h' | h' | h' | h' <;>
              rw [h'] <;> rcases hk with rfl | rfl <;> decide
        refine ⟨⟨m5, by rw [hcfg', hm5, hm2]⟩, ?_, ?_, ?_, ?_, ?_, ?_⟩
        · rw [hep, hT25 "epoch" (Or.inl rfl), hdisjT "epoch" (Or.inl rfl)]
        · rw [het]
          unfold seriesLen
          rw [hT25 "epoch_time" (Or.inr rfl),
            hdisjT "epoch_time" (Or.inr (Or.inl rfl))]
        · intro hisSome
          rcases hvl : st.cfg.validation_loader with _ | vl
          · rw [hvl] at hisSome
            exact absurd hisSome (by simp)
          · obtain ⟨yt2, yp2, rl2, happ2⟩ := hsome (by rw [hvl2, hvl]; rfl)
            have hcnt := metricsKVs_filter_loss cfg2 "validation" yt2 yp2 rl2
            simp only [show ("validation" ++ "_loss" : String) =
              "validation_loss" from rfl] at hcnt
            have hlen := appendMany_ok_len _ _ _ "validation_loss" happ2
            rw [hcnt] at hlen
            have hvl_other : lookupSeries st'.results "validation_loss" =
                lookupSeries results5 "validation_loss" :=
              hother "validation_loss" (by decide) (by decide)
            unfold seriesLen at hlen ⊢
            rw [hvl_other, hlen, hdisjT "validation_loss" (Or.inr (Or.inr rfl))]
        · intro hvl
          obtain ⟨-, hval5⟩ := hnone (hvl2.trans hvl)
          rw [hval', hval5]
        · have hfst2 : results2.map Prod.fst = st.results.map Prod.fst :=
            appendMany_ok_fst _ _ _ happ
          have hfst5 : results5.map Prod.fst = results2.map Prod.fst := by
            rcases hvl : st.cfg.validation_loader with _ | vl
            · obtain ⟨hr5, -⟩ := hnone (hvl2.trans hvl)
              rw [hr5]
            · obtain ⟨yt2, yp2, rl2, happ2⟩ := hsome (by rw [hvl2, hvl]; rfl)
              exact appendMany_ok_fst _ _ _ happ2
          rw [hfst, hfst5, hfst2]
        · have hck : inCkpt cfg5 epoch = inCkpt st.cfg epoch := by
            unfold inCkpt
            rw [hm5, hm2]
          rw [hev, hck]

/-- A successful final checkpoint adds one "last"-tagged event exactly when
`save_model` is set. -/
theorem finalCheckpoint_ok_spec (st : LoopState)
    (events : List CheckpointEvent) (h : finalCheckpoint st = .ok events) :
    events.map CheckpointEvent.tag =
      st.events.map CheckpointEvent.tag ++
        (if st.cfg.save_model then [CkptTag.last] else []) := by
  unfold finalCheckpoint at h
  split at h
  · rename_i hsm
    split at h
    · simp at h
    · split at h
      · simp at h
      · simp only [Except.ok.injEq] at h
        subst h
        simp [hsm]
  · rename_i hsm
    simp only [Except.ok.injEq] at h
    subst h
    simp [hsm]

/-- A successful classification tail returns the results and events as they
stand. -/
theorem classificationTail_ok_spec (st : LoopState)
    (events : List CheckpointEvent) (c : TrainingConfig) (r : Results)
    (evs : List CheckpointEvent)
    (h : classificationTail st events = .ok c r evs) :
    r = st.results ∧ evs = events := by
  unfold classificationTail at h
  split at h
  · split at h
    · exact TrainResult.noConfusion h
    · exact TrainResult.noConfusion h
    · simp only [TrainResult.ok.injEq] at h
      exact ⟨h.2.1.symm, h.2.2.symm⟩
  · simp only [TrainResult.ok.injEq] at h
    exact ⟨h.2.1.symm, h.2.2.symm⟩

/-- Destructuring a successful post-loop tail of `train`: the results are
returned as they stand, and one final "last" checkpoint fires exactly when
`save_model` is set. -/
theorem trainFinish_ok_spec (st : LoopState) (c : TrainingConfig)
    (r : Results) (evs : List CheckpointEvent)
    (h : trainFinish st = .ok c r evs) :
    r = st.results ∧
    evs.map CheckpointEvent.tag =
      st.events.map CheckpointEvent.tag ++
        (if st.cfg.save_model then [CkptTag.last] else []) := by
  unfold trainFinish at h
  split at h
  · exact TrainResult.noConfusion h
  · rename_i events hfc
    obtain ⟨hr, hevs⟩ := classificationTail_ok_spec _ _ _ _ _ h
    subst hevs
    exact ⟨hr, finalCheckpoint_ok_spec _ _ hfc⟩

/-- The loop invariant of `train`: over a successful run of the remaining
epoch indices, the epoch series collects `e + 1` for each index in order,
the epoch-time series gains one entry per index, the validation-loss series
does too when a validation loader is configured, the key set never changes,
and the fired checkpoint tags are the configured indices in order plus a
final "last" tag when `save_model` is set. -/
theorem trainLoop_ok_spec :
    ∀ (es : List Nat) (st : LoopState) (c : TrainingConfig) (r : Results)
      (evs : List CheckpointEvent),
      trainLoop st es = .ok c r evs →
      lookupSeries r "epoch" =
        (lookupSeries st.results "epoch").map
          (fun l => l ++ es.map (fun e => (e : ℚ) + 1)) ∧
      seriesLen r "epoch_time" =
        (seriesLen st.results "epoch_time").map (fun n => n + es.length) ∧
      (st.cfg.validation_loader.isSome →
        seriesLen r "validation_loss" =
          (seriesLen st.results "validation_loss").map
            (fun n => n + es.length)) ∧
      r.map Prod.fst = st.results.map Prod.fst ∧
      evs.map CheckpointEvent.tag =
        st.events.map CheckpointEvent.tag ++
          (es.filter (fun e => inCkpt st.cfg e)).map CkptTag.epoch ++
          (if st.cfg.save_model then [CkptTag.last] else []) := by
  intro es
  induction es with
  | nil =>
    intro st c r evs h
    obtain ⟨hr, hevs⟩ := trainFinish_ok_spec _ _ _ _ h
    subst hr
    refine ⟨?_, ?_, fun _ => ?_, rfl, by simpa using hevs⟩
    · cases lookupSeries st.results "epoch" <;> simp
    · cases seriesLen st.results "epoch_time" <;> simp
    · cases seriesLen st.results "validation_loss" <;> simp
  | cons e es ih =>
    intro st c r evs h
    unfold trainLoop at h
    split at h
    · exact TrainResult.noConfusion h
    · rename_i st1 hb
      obtain ⟨⟨m, hm⟩, hep, het, hvl, -, hfst, hev⟩ :=
        epochBody_ok_spec _ _ _ hb
      obtain ⟨ihep, ihet, ihvl, ihfst, ihev⟩ := ih st1 c r evs h
      have hvls : st1.cfg.validation_loader = st.cfg.validation_loader := by
        rw [hm]
      have hsm : st1.cfg.save_model = st.cfg.save_model := by
        rw [hm]
      have hckf : (fun e => inCkpt st1.cfg e) = (fun e => inCkpt st.cfg e) := by
        funext x
        unfold inCkpt
        rw [hm]
      refine ⟨?_, ?_, ?_, ihfst.trans hfst, ?_⟩
      · rw [ihep, hep]
        cases lookupSeries st.results "epoch" <;> simp
      · rw [ihet, het]
        cases seriesLen st.results "epoch_time" <;> simp
        omega
      · intro hs
        rw [ihvl (by rw [hvls]; exact hs), hvl hs]
        cases seriesLen st.results "validation_loss" <;> simp
        omega
      · rw [ihev, hev, hckf, hsm, List.filter_cons]
        by_cases hck : inCkpt st.cfg e <;> simp [hck, List.append_assoc]

/-- A freshly initialised results mapping holds an empty series under
exactly the tracked keys. -/
theorem lookupSeries_initResults (keys : List String) (k : String) :
    lookupSeries (initResults keys) k = if k ∈ keys then some [] else none := by
  induction keys with
  | nil => rfl
  | cons a ks ih =>
    by_cases ha : a = k
    · unfold initResults lookupSeries
      rw [List.map_cons, List.find?_cons_of_pos _ (by simpa using ha)]
      simp [ha]
    · unfold initResults lookupSeries at ih ⊢
      rw [List.map_cons, List.find?_cons_of_neg _ (by simpa using ha), ih]
      by_cases hm : k ∈ ks
      · rw [if_pos hm, if_pos (List.mem_cons_of_mem a hm)]
      · rw [if_neg hm, if_neg (by
          intro hc
          rcases List.mem_cons.1 hc with hc | hc
          · exact ha hc.symm
          · exact hm hc)]

/-- The key set of a freshly initialised results mapping is the tracked
list itself. -/
theorem initResults_fst (keys : List String) :
    (initResults keys).map Prod.fst = keys := by
  unfold initResults
  rw [List.map_map]
  have hcomp : (Prod.fst ∘ fun k : String => (k, ([] : List ℚ))) =
      (id : String → String) := rfl
  rw [hcomp, List.map_id]

/-- Claim C2: after a successful `train` run, the "epoch" and "epoch_time"
series each contain exactly `epochs` entries. -/
theorem C2_series_lengths (cfg : TrainingConfig) (c : TrainingConfig)
    (r : Results) (evs : List CheckpointEvent) (hE : 1 ≤ cfg.epochs)
    (h : train cfg = .ok c r evs) :
    seriesLen r "epoch" = some cfg.epochs ∧
    seriesLen r "epoch_time" = some cfg.epochs := by
  unfold train at h
  obtain ⟨hep, het, -, -, -⟩ := trainLoop_ok_spec _ _ _ _ _ h
  dsimp only at hep het
  constructor
  · unfold seriesLen
    rw [hep, lookupSeries_initResults,
      if_pos (show "epoch" ∈ toTrack cfg by simp [toTrack])]
    simp
    have hone : (List.length ∘ fun a : ℕ => ([(a : ℚ)] : List ℚ)) =
        fun _ : ℕ => 1 := rfl
    rw [hone, List.map_const', List.sum_replicate, smul_eq_mul, mul_one,
      List.length_range]
  · have h0 : seriesLen (initResults (toTrack cfg)) "epoch_time" = some 0 := by
      unfold seriesLen
      rw [lookupSeries_initResults,
        if_pos (show "epoch_time" ∈ toTrack cfg by simp [toTrack])]
      rfl
    rw [het, h0]
    simp

/-- A concrete one-epoch training-only configuration for closed runs of
`train`. -/
def cfgC3 : TrainingConfig :=
  ⟨testModel true, testLoss, [testBatch], none, 1 / 1000,
    .bound (torchOptimSGD (1 / 1000)), 1, .str "cpu", false, false, false,
    true, none, testEnv⟩

/-- The "epoch" series a `train` run produces, `none` when the run raised. -/
def trainEpochSeries (cfg : TrainingConfig) : Option (List ℚ) :=
  match train cfg with
  | .ok _ r _ => lookupSeries r "epoch"
  | .err _ _ => none

/-- After a successful `train` run the "epoch" series is
`[1, 2, ..., epochs]`: the loop records `epoch + 1`, not the epoch index. -/
theorem train_ok_epoch_series (cfg : TrainingConfig) (c : TrainingConfig)
    (r : Results) (evs : List CheckpointEvent) (h : train cfg = .ok c r evs) :
    lookupSeries r "epoch" =
      some ((List.range cfg.epochs).map (fun e => (e : ℚ) + 1)) := by
  unfold train at h
  obtain ⟨hep, -, -, -, -⟩ := trainLoop_ok_spec _ _ _ _ _ h
  dsimp only at hep
  rw [hep, lookupSeries_initResults,
    if_pos (show "epoch" ∈ toTrack cfg by simp [toTrack])]
  simp

/-- Witness for claim C2: a concrete one-epoch run has one entry in each of
the "epoch" and "epoch_time" series. -/
theorem C2_series_lengths_witness :
    ∃ c r evs, train cfgC3 = .ok c r evs ∧
      seriesLen r "epoch" = some 1 ∧ seriesLen r "epoch_time" = some 1 := by
  have hok : (match train cfgC3 with
      | .ok _ _ _ => true
      | .err _ _ => false) = true := by decide
  rcases htr : train cfgC3 with ⟨c, r, evs⟩ | ⟨e, evs⟩
  · exact ⟨c, r, evs, rfl, C2_series_lengths cfgC3 c r evs (by decide) htr⟩
  · rw [htr] at hok
    simp at hok

/-- Claim C3, as stated, is false: the "epoch" series of a successful
one-epoch run is `[1]`, not the ordered epoch indices `[0]`. -/
theorem C3_counterexample :
    trainEpochSeries cfgC3 ≠
      some ((List.range cfgC3.epochs).map (fun e => (e : ℚ))) ∧
    trainEpochSeries cfgC3 = some [1] := by
  have hok : (match train cfgC3 with
      | .ok _ _ _ => true
      | .err _ _ => false) = true := by decide
  rcases htr : train cfgC3 with ⟨c, r, evs⟩ | ⟨e, evs⟩
  · have hser := train_ok_epoch_series cfgC3 c r evs htr
    have hval : trainEpochSeries cfgC3 = lookupSeries r "epoch" := by
      unfold trainEpochSeries
      rw [htr]
    rw [hval, hser]
    constructor
    · rw [show List.range cfgC3.epochs = [0] from rfl]
      norm_num
    · rw [show List.range cfgC3.epochs = [0] from rfl]
      norm_num
  · rw [htr] at hok
    simp at hok

/-- Claim C3 (corrected): `train` iterates epochs over `[0, epochs)` in
order, but records `epoch + 1` for each, so after a successful run the
"epoch" series is the ordered sequence `1, 2, ..., E`, not `0, ..., E - 1`. -/
theorem C3_epoch_series (cfg : TrainingConfig) (c : TrainingConfig)
    (r : Results) (evs : List CheckpointEvent) (h : train cfg = .ok c r evs) :
    lookupSeries r "epoch" =
      some ((List.range cfg.epochs).map (fun e => (e : ℚ) + 1)) :=
  train_ok_epoch_series cfg c r evs h

/-- Witness for the corrected claim C3 on a concrete one-epoch run. -/
theorem C3_epoch_series_witness :
    ∃ c r evs, train cfgC3 = .ok c r evs ∧
      lookupSeries r "epoch" =
        some ((List.range cfgC3.epochs).map (fun e => (e : ℚ) + 1)) := by
  have hok : (match train cfgC3 with
      | .ok _ _ _ => true
      | .err _ _ => false) = true := by decide
  rcases htr : train cfgC3 with ⟨c, r, evs⟩ | ⟨e, evs⟩
  · exact ⟨c, r, evs, rfl, C3_epoch_series cfgC3 c r evs htr⟩
  · rw [htr] at hok
    simp at hok

/-- Claim C4: with checkpoint epochs {0, 2} and three epochs, a successful
run with `save_model` fires exactly the checkpoint events at indices 0 and 2
plus one final "last" event; with `save_model` off and no checkpoint epochs
configured, no checkpoint event fires at all. -/
theorem C4_checkpoint_events :
    (∀ (cfg c : TrainingConfig) (r : Results) (evs : List CheckpointEvent),
      train cfg = .ok c r evs → cfg.epochs = 3 →
      cfg.checkpoint_epochs = some [0, 2] → cfg.save_model = true →
      evs.map CheckpointEvent.tag =
        [CkptTag.epoch 0, CkptTag.epoch 2, CkptTag.last]) ∧
    (∀ (cfg c : TrainingConfig) (r : Results) (evs : List CheckpointEvent),
      train cfg = .ok c r evs → cfg.save_model = false →
      cfg.checkpoint_epochs = none → evs = []) := by
  constructor
  · intro cfg c r evs h hE hck hsm
    unfold train at h
    obtain ⟨-, -, -, -, hev⟩ := trainLoop_ok_spec _ _ _ _ _ h
    dsimp only at hev
    rw [hE] at hev
    have h0 : inCkpt cfg 0 = true := by simp [inCkpt, hck]
    have h1 : inCkpt cfg 1 = false := by simp [inCkpt, hck]
    have h2 : inCkpt cfg 2 = true := by simp [inCkpt, hck]
    rw [show List.range 3 = [0, 1, 2] from rfl] at hev
    simpa [List.filter_cons, h0, h1, h2, hsm] using hev
  · intro cfg c r evs h hsm hck
    unfold train at h
    obtain ⟨-, -, -, -, hev⟩ := trainLoop_ok_spec _ _ _ _ _ h
    dsimp only at hev
    have hfilter : ∀ e, inCkpt cfg e = false := fun e => by simp [inCkpt, hck]
    simp [hfilter, hsm] at hev
    exact hev

/-- A concrete three-epoch run with validation, checkpoints at 0 and 2, and
`save_model` on. -/
def cfgC4 : TrainingConfig :=
  ⟨testModel true, testLoss, [testBatch], some [testBatch], 1 / 1000,
    .bound (torchOptimSGD (1 / 1000)), 3, .str "cpu", true, false, false,
    true, some [0, 2], testEnv⟩

/-- Witness for claim C4 on a concrete three-epoch checkpointing run. -/
theorem C4_checkpoint_events_witness :
    ∃ c r evs, train cfgC4 = .ok c r evs ∧
      evs.map CheckpointEvent.tag =
        [CkptTag.epoch 0, CkptTag.epoch 2, CkptTag.last] := by
  have hok : (match train cfgC4 with
      | .ok _ _ _ => true
      | .err _ _ => false) = true := by decide
  rcases htr : train cfgC4 with ⟨c, r, evs⟩ | ⟨e, evs⟩
  · exact ⟨c, r, evs, rfl,
      C4_checkpoint_events.1 cfgC4 c r evs htr rfl rfl rfl⟩
  · rw [htr] at hok
    simp at hok

/-- Whether the string `p` is a leading segment of `s`, decided on the
underlying character lists. -/
def strLeads (p s : String) : Bool := p.data.isPrefixOf s.data

/-- Claim C7: with a validation source, a successful run's
"validation_loss" series has exactly `epochs` entries; without one, no key
of the results mapping carries the "validation" prefix. -/
theorem C7_validation_series :
    (∀ (cfg c : TrainingConfig) (r : Results) (evs : List CheckpointEvent),
      train cfg = .ok c r evs → cfg.validation_loader.isSome →
      seriesLen r "validation_loss" = some cfg.epochs) ∧
    (∀ (cfg c : TrainingConfig) (r : Results) (evs : List CheckpointEvent),
      train cfg = .ok c r evs → cfg.validation_loader = none →
      ∀ k ∈ r.map Prod.fst, strLeads "validation" k = false) := by
  constructor
  · intro cfg c r evs h hs
    unfold train at h
    obtain ⟨-, -, hvl, -, -⟩ := trainLoop_ok_spec _ _ _ _ _ h
    dsimp only at hvl
    have h0 : seriesLen (initResults (toTrack cfg)) "validation_loss" =
        some 0 := by
      unfold seriesLen
      rw [lookupSeries_initResults,
        if_pos (show "validation_loss" ∈ toTrack cfg by simp [toTrack, hs])]
      rfl
    rw [hvl hs, h0]
    simp
  · intro cfg c r evs h hnone k hk
    unfold train at h
    obtain ⟨-, -, -, hfst, -⟩ := trainLoop_ok_spec _ _ _ _ _ h
    dsimp only at hfst
    rw [hfst, initResults_fst] at hk
    unfold toTrack at hk
    rw [hnone] at hk
    by_cases hcm : cfg.classification_metrics <;> simp [hcm] at hk
    · rcases hk with rfl | rfl | rfl | rfl | rfl | rfl | rfl <;> decide
    · rcases hk with rfl | rfl | rfl <;> decide

/-- Witness for claim C7: a three-epoch run with validation has three
validation-loss entries, and a run without validation has no
validation-prefixed key. -/
theorem C7_validation_series_witness :
    (∃ c r evs, train cfgC4 = .ok c r evs ∧
      seriesLen r "validation_loss" = some 3) ∧
    (∃ c r evs, train cfgC3 = .ok c r evs ∧
      ∀ k ∈ r.map Prod.fst, strLeads "validation" k = false) := by
  constructor
  · have hok : (match train cfgC4 with
        | .ok _ _ _ => true
        | .err _ _ => false) = true := by decide
    rcases htr : train cfgC4 with ⟨c, r, evs⟩ | ⟨e, evs⟩
    · exact ⟨c, r, evs, rfl,
        C7_validation_series.1 cfgC4 c r evs htr rfl⟩
    · rw [htr] at hok
      simp at hok
  · have hok : (match train cfgC3 with
        | .ok _ _ _ => true
        | .err _ _ => false) = true := by decide
    rcases htr : train cfgC3 with ⟨c, r, evs⟩ | ⟨e, evs⟩
    · exact ⟨c, r, evs, rfl,
        C7_validation_series.2 cfgC3 c r evs htr rfl⟩
    · rw [htr] at hok
      simp at hok

/-- In training mode with a bound optimizer the batch loop never raises, and
it ends with the last batch's input bound. -/
theorem runBatches_training_total (cfg : TrainingConfig) (o : TorchOptimizer)
    (hopt : cfg.optimizer = .bound o) :
    ∀ (bs : List Batch) (st : BatchLoopState), st.model.training = true →
      ∃ st', runBatches cfg st bs = .ok st' ∧ st'.model.training = true ∧
        (bs = [] → st'.lastX = st.lastX) ∧
        (bs ≠ [] → ∃ b ∈ bs, st'.lastX = some b.x) := by
  intro bs
  induction bs with
  | nil =>
    intro st h
    exact ⟨st, rfl, h, fun _ => rfl, fun hc => absurd rfl hc⟩
  | cons b bs ih =>
    intro st htr
    have hb : ∃ st1, runEpochBatch cfg st b = .ok st1 ∧
        st1.model.training = true ∧ st1.lastX = some b.x := by
      unfold runEpochBatch
      simp only [htr, hopt]
      exact ⟨_, rfl, rfl, rfl⟩
    obtain ⟨st1, hst1, htr1, hlast1⟩ := hb
    obtain ⟨st', hst', htr', hnil, hcons⟩ := ih st1 htr1
    refine ⟨st', ?_, htr', fun hc => absurd hc (by simp), fun _ => ?_⟩
    · unfold runBatches
      rw [hst1]
      exact hst'
    · by_cases hbs : bs = []
      · subst hbs
        exact ⟨b, List.mem_cons_self b [], (hnil rfl).trans hlast1⟩
      · obtain ⟨b', hb', hx⟩ := hcons hbs
        exact ⟨b', List.mem_cons_of_mem b hb', hx⟩

/-- A training pass of `run_epoch` succeeds whenever the optimizer is bound,
the model is in training mode, the loader is nonempty, and the series keys
it appends are present; the returned sample is the input of some batch. -/
theorem run_epoch_training_total (cfg : TrainingConfig) (r : Results)
    (epoch : Nat) (o : TorchOptimizer)
    (hopt : cfg.optimizer = .bound o)
    (htrm : cfg.model.training = true)
    (hload : cfg.training_loader ≠ [])
    (hkeys : "training_loss" ∈ r.map Prod.fst)
    (hkeysm : cfg.classification_metrics = true →
      "training_accuracy" ∈ r.map Prod.fst ∧
      "training_macro_recall" ∈ r.map Prod.fst ∧
      "training_macro_precision" ∈ r.map Prod.fst ∧
      "training_macro_f1score" ∈ r.map Prod.fst) :
    ∃ c' r' out, run_epoch cfg r epoch "training" = .ok (c', r', out) ∧
      ∃ b ∈ cfg.training_loader, out.x = b.x := by
  obtain ⟨st, hst, htr', hnil, hcons⟩ :=
    runBatches_training_total cfg o hopt cfg.training_loader
      ⟨cfg.model, [], [], [], none⟩ htrm
  obtain ⟨b, hb, hlx⟩ := hcons hload
  have hkvkeys : ∀ kv ∈ metricsKVs cfg "training" st.y_true
      (convertPreds st.y_pred) st.running_loss, kv.1 ∈ r.map Prod.fst := by
    by_cases hcm : cfg.classification_metrics
    · obtain ⟨h1, h2, h3, h4⟩ := hkeysm hcm
      intro kv hkv
      rcases metricsKVs_keys _ _ _ _ _ kv hkv with h' | h' | h' | h' | h' <;>
        rw [h']
      · exact h1
      · exact h2
      · exact h3
      · exact h4
      · exact hkeys
    · intro kv hkv
      simp [metricsKVs, hcm] at hkv
      rw [hkv]
      exact hkeys
  obtain ⟨r', hr'⟩ := appendMany_ok_of_keys _ r hkvkeys
  have hrun : run_epoch cfg r epoch "training" =
      runEpochFinish cfg epoch "training" st r := by
    unfold run_epoch
    rw [show pickLoader cfg "training" = .ok cfg.training_loader from rfl]
    dsimp only
    rw [hst]
  have hfin : runEpochFinish cfg epoch "training" st r =
      .ok ({ cfg with model := st.model }, r',
        ⟨cfg.env.clock epoch "training",
          if cfg.epochs = epoch + 1 ∧ ("training" : String) = "validation" then
            some (st.y_true, convertPreds st.y_pred)
          else none,
          b.x⟩) := by
    unfold runEpochFinish
    rw [show appendEpochMetrics cfg r "training" st.y_true
      (convertPreds st.y_pred) st.running_loss = .ok r' from hr']
    dsimp only
    rw [hlx]
  exact ⟨_, _, _, hrun.trans hfin, b, hb, rfl⟩

/-- The epoch tail with an unbound `validation_result`: a configured
checkpoint raises `NameError`; otherwise the iteration completes with the
local still unbound and no event fired. -/
theorem epochTail_noval (st : LoopState) (epoch : Nat)
    (cfg5 : TrainingConfig) (results5 : Results) (xs : List Int) (t : ℚ)
    (hep : "epoch" ∈ results5.map Prod.fst)
    (het : "epoch_time" ∈ results5.map Prod.fst) :
    (inCkpt cfg5 epoch = true →
      epochTail st epoch cfg5 results5 none xs t = .error .nameError) ∧
    (inCkpt cfg5 epoch = false →
      ∃ r7, epochTail st epoch cfg5 results5 none xs t =
        .ok ⟨cfg5, r7, none, some xs, st.time_training + t, st.events⟩ ∧
        r7.map Prod.fst = results5.map Prod.fst) := by
  obtain ⟨r6, h6⟩ := appendAt_ok_of_mem results5 "epoch" ((epoch : ℚ) + 1) hep
  have hfst6 : r6.map Prod.fst = results5.map Prod.fst := by
    rw [appendAt_ok_eq _ _ _ _ h6, map_fst_update]
  obtain ⟨r7, h7⟩ := appendAt_ok_of_mem r6 "epoch_time" t (by rw [hfst6]; exact het)
  have hfst7 : r7.map Prod.fst = r6.map Prod.fst := by
    rw [appendAt_ok_eq _ _ _ _ h7, map_fst_update]
  constructor
  · intro hck
    unfold epochTail
    rw [h6]
    dsimp only
    rw [h7]
    dsimp only
    rw [hck]
    simp [readName]
  · intro hck
    refine ⟨r7, ?_, hfst7.trans hfst6⟩
    unfold epochTail
    rw [h6]
    dsimp only
    rw [h7]
    dsimp only
    rw [hck]
    simp

/-- One epoch iteration with no validation loader: `validation_result` stays
unbound, so a configured checkpoint raises `NameError`; otherwise the
iteration completes with the configuration surface unchanged and no event
fired. -/
theorem epochBody_noval (st : LoopState) (epoch : Nat) (o : TorchOptimizer)
    (hval : st.cfg.validation_loader = none)
    (hopt : st.cfg.optimizer = .bound o)
    (hload : st.cfg.training_loader ≠ [])
    (hx : ∀ b ∈ st.cfg.training_loader, b.x ≠ [])
    (hkeys : st.results.map Prod.fst = toTrack st.cfg)
    (hvr : st.validation_result = none) :
    (inCkpt st.cfg epoch = true → epochBody st epoch = .error .nameError) ∧
    (inCkpt st.cfg epoch = false → ∃ st', epochBody st epoch = .ok st' ∧
      st'.cfg.validation_loader = none ∧
      st'.cfg.optimizer = OptimizerField.bound o ∧
      st'.cfg.training_loader = st.cfg.training_loader ∧
      st'.cfg.checkpoint_epochs = st.cfg.checkpoint_epochs ∧
      st'.cfg.save_model = st.cfg.save_model ∧
      st'.results.map Prod.fst = toTrack st'.cfg ∧
      st'.validation_result = none ∧ st'.events = st.events) := by
  obtain ⟨c', r', out, hre, b, hb, hbx⟩ :=
    run_epoch_training_total
      { st.cfg with model := { st.cfg.model with training := true } }
      st.results epoch o hopt rfl hload
      (by rw [hkeys]; simp [toTrack])
      (by
        intro hcm
        have hcm' : st.cfg.classification_metrics = true := hcm
        refine ⟨?_, ?_, ?_, ?_⟩ <;> (rw [hkeys]; simp [toTrack, hcm']))
  obtain ⟨hcm2, hy⟩ := run_epoch_ok_elim _ _ _ _ _ _ _ hre
  obtain ⟨m, hm⟩ := hcm2
  obtain ⟨yt, yp, rl, happ⟩ := hy
  have hfstr' : r'.map Prod.fst = toTrack st.cfg := by
    rw [appendMany_ok_fst _ _ _ happ, hkeys]
  have hcvl : c'.validation_loader = none := by rw [hm]; exact hval
  have hcopt : c'.optimizer = OptimizerField.bound o := by rw [hm]; exact hopt
  have hctl : c'.training_loader = st.cfg.training_loader := by rw [hm]
  have hcck : c'.checkpoint_epochs = st.cfg.checkpoint_epochs := by rw [hm]
  have hcsm : c'.save_model = st.cfg.save_model := by rw [hm]
  have htt : toTrack c' = toTrack st.cfg := by
    unfold toTrack
    rw [hm]
  obtain ⟨v, vs, hbcons⟩ := List.exists_cons_of_ne_nil (hx b hb)
  have hhead : out.x.head? = some v := by
    rw [hbx, hbcons]
    rfl
  have hvp : validationPhase c' r' epoch st.validation_result =
      .ok (c', r', st.validation_result) := by
    unfold validationPhase
    rw [hcvl]
  have hbody : epochBody st epoch =
      epochTail st epoch c' r' st.validation_result [v] out.time_elapsed := by
    unfold epochBody
    rw [hre]
    dsimp only
    rw [hhead]
    dsimp only
    rw [hvp]
  rw [hvr] at hbody
  have hepk : "epoch" ∈ r'.map Prod.fst := by
    rw [hfstr']
    simp [toTrack]
  have hetk : "epoch_time" ∈ r'.map Prod.fst := by
    rw [hfstr']
    simp [toTrack]
  obtain ⟨htailErr, htailOk⟩ :=
    epochTail_noval st epoch c' r' [v] out.time_elapsed hepk hetk
  have hck : inCkpt c' epoch = inCkpt st.cfg epoch := by
    unfold inCkpt
    rw [hm]
  constructor
  · intro h1
    rw [hbody]
    exact htailErr (by rw [hck]; exact h1)
  · intro h1
    obtain ⟨r7, htl, hfst7⟩ := htailOk (by rw [hck]; exact h1)
    refine ⟨⟨c', r7, none, some [v], st.time_training + out.time_elapsed,
      st.events⟩, hbody.trans htl, hcvl, hcopt, hctl, hcck, hcsm, ?_, rfl, rfl⟩
    show r7.map Prod.fst = toTrack c'
    rw [hfst7, hfstr', htt]

/-- With no validation loader, `validation_result` is never bound, so the
first checkpoint trigger — a configured epoch or the final `save_model`
checkpoint — raises `NameError` with no event having fired. -/
theorem trainLoop_noval_err :
    ∀ (es : List Nat) (st : LoopState) (o : TorchOptimizer),
      st.cfg.validation_loader = none →
      st.cfg.optimizer = OptimizerField.bound o →
      st.cfg.training_loader ≠ [] →
      (∀ b ∈ st.cfg.training_loader, b.x ≠ []) →
      st.results.map Prod.fst = toTrack st.cfg →
      st.validation_result = none → st.events = [] →
      ((∃ e ∈ es, inCkpt st.cfg e = true) ∨ st.cfg.save_model = true) →
      trainLoop st es = .err .nameError [] := by
  intro es
  induction es with
  | nil =>
    intro st o hval hopt hload hx hkeys hvr hevs htrig
    rcases htrig with ⟨e, he, -⟩ | hsm
    · exact absurd he (List.not_mem_nil e)
    · show trainFinish st = .err .nameError []
      have hfc : finalCheckpoint st = .error .nameError := by
        unfold finalCheckpoint
        rw [if_pos hsm, hvr]
        rfl
      unfold trainFinish
      rw [hfc, hevs]
  | cons e rest ih =>
    intro st o hval hopt hload hx hkeys hvr hevs htrig
    obtain ⟨hhit, hmiss⟩ := epochBody_noval st e o hval hopt hload hx hkeys hvr
    by_cases hck : inCkpt st.cfg e
    · show (match epochBody st e with
        | .error pe => TrainResult.err pe st.events
        | .ok st' => trainLoop st' rest) = .err .nameError []
      rw [hhit hck, hevs]
    · obtain ⟨st', hok, hval', hopt', htl', hck', hsm', hkeys', hvr', hevs'⟩ :=
        hmiss (by simpa using hck)
      show (match epochBody st e with
        | .error pe => TrainResult.err pe st.events
        | .ok st' => trainLoop st' rest) = .err .nameError []
      rw [hok]
      refine ih st' o hval' hopt' (by rw [htl']; exact hload)
        (by rw [htl']; exact hx) hkeys' hvr' (hevs'.trans hevs) ?_
      rcases htrig with ⟨e', he', hckt⟩ | hsm
      · rcases List.mem_cons.1 he' with rfl | he'
        · exact absurd hckt (by simpa using hck)
        · refine Or.inl ⟨e', he', ?_⟩
          rw [show inCkpt st'.cfg e' = inCkpt st.cfg e' from by
            unfold inCkpt; rw [hck']]
          exact hckt
      · exact Or.inr (hsm'.trans hsm)

/-- Claim C8: with no validation loader and with either `save_model` set or
a checkpoint epoch within range, `validation_result` is only ever bound
inside the validation branch, so the checkpoint trigger's read of that name
terminates the run with an unhandled `NameError` and no checkpoint event is
produced.  (The run is assumed otherwise well-formed: a bound optimizer and
a nonempty loader of nonempty batches, so that nothing fails earlier.) -/
theorem C8_checkpoint_nameError (cfg : TrainingConfig) (o : TorchOptimizer)
    (hval : cfg.validation_loader = none)
    (hopt : cfg.optimizer = OptimizerField.bound o)
    (hload : cfg.training_loader ≠ [])
    (hx : ∀ b ∈ cfg.training_loader, b.x ≠ [])
    (htrig : cfg.save_model = true ∨
      ∃ l, cfg.checkpoint_epochs = some l ∧ ∃ e ∈ l, e < cfg.epochs) :
    train cfg = .err .nameError [] := by
  unfold train
  refine trainLoop_noval_err (List.range cfg.epochs)
    ⟨cfg, initResults (toTrack cfg), none, none, 0, []⟩ o hval hopt hload hx
    (initResults_fst _) rfl rfl ?_
  rcases htrig with hsm | ⟨l, hl, e, he, helt⟩
  · exact Or.inr hsm
  · exact Or.inl ⟨e, List.mem_range.2 helt, by simp [inCkpt, hl, he]⟩

/-- A concrete run with `save_model` on and no validation loader, for the
closed `NameError` witness. -/
def cfgC8 : TrainingConfig :=
  ⟨testModel true, testLoss, [testBatch], none, 1 / 1000,
    .bound (torchOptimSGD (1 / 1000)), 1, .str "cpu", true, false, false,
    true, none, testEnv⟩

/-- Witness for claim C8: the concrete run terminates with `NameError` and
an empty event trace. -/
theorem C8_checkpoint_nameError_witness :
    train cfgC8 = .err .nameError [] := by
  refine C8_checkpoint_nameError cfgC8 (torchOptimSGD (1 / 1000)) rfl rfl
    (by simp [cfgC8]) ?_ (Or.inl rfl)
  intro b hb
  simp [cfgC8, testBatch] at hb
  rw [hb]
  simp [testBatch]
